import Mathlib

/-!
Verification of the incremental synchronization engine of the
`data-ingestion-auto` repository: a shallow embedding of the state store
(`ingest/utils.py`), the workflow base class (`ingest/__init__.py`), the
patched ECMWF open-data client (`ingest/ecmwf_opendata/client.py`) and the
skip/commit logic of the ECMWF and dust-forecast workflows, together with
theorems settling the specification's claims about them.
-/

/-! ## JSON-like values

The state file is read and written with `json.load` / `json.dumps`.  The
values stored per dataset-id are JSON strings or JSON objects; those are the
only shapes the repository ever commits, so the embedding models exactly
them. -/

inductive JVal : Type
  | str (s : String)
  | obj (fields : List (String × JVal))
  deriving Repr

/-- Association-list lookup, the semantics of Python `dict.get` /
`dict[k]` reads for dictionaries built in insertion order. -/
def alookup {α : Type} (k : String) : List (String × α) → Option α
  | [] => none
  | (k', v) :: rest => if k' = k then some v else alookup k rest

/-- Python `d[k] = v`: replace the value at an existing key in place,
otherwise append the new key at the end. -/
def setKey : List (String × JVal) → String → JVal → List (String × JVal)
  | [], k, v => [(k, v)]
  | (k', v') :: rest, k, v =>
      if k' = k then (k, v) :: rest else (k', v') :: setKey rest k v

/-- Python `old.update(new)`: assign every entry of `new` into `old`, in
order. -/
def dictUpdate (old new : List (String × JVal)) : List (String × JVal) :=
  new.foldl (fun m kv => setKey m kv.1 kv.2) old

/-- Python truthiness of a stored value: the empty string and the empty
dict are falsy. -/
def jtruthy : JVal → Bool
  | .str s => !(s == "")
  | .obj kvs => !kvs.isEmpty

/-- Python `value.get(k)` on a value known to be a dict.  (The repository
only applies `.get` to dict values; the `str` branch is unreachable in the
modelled paths and returns `none` to keep the function total.) -/
def jget (v : JVal) (k : String) : Option JVal :=
  match v with
  | .obj kvs => alookup k kvs
  | .str _ => none

/-! ## The state store (`ingest/utils.py`)

`DATASET_STATE_FILE` is one JSON file keyed by dataset-id.  Its content as
seen by `json.load` is either a parsed object or malformed (raising
`json.decoder.JSONDecodeError`).  A partially written JSON object file is
malformed: no proper prefix of a serialized JSON object is valid JSON. -/

inductive Content : Type
  | malformed
  | parsed (m : List (String × JVal))
  deriving Repr

/-- The file system locations the state store touches: the canonical state
file.  `file = none` means the file does not exist. -/
structure StateFS : Type where
  file : Option Content
  deriving Repr

/-- Python exceptions that the modelled paths can raise. -/
inductive PyErr : Type
  | fileNotFound
  | jsonDecodeError
  | typeError
  | attributeError
  deriving Repr, DecidableEq

namespace Utils

/-- `utils.write_empty_state` (utils.py lines 81-91): atomically writes a
state file holding only `{dataset_id: {"last_update": ""}}` (or `{}` when
the dataset-id is falsy) and returns the per-dataset entry (resp. the empty
dict). -/
def write_empty_state (dataset_id : String) : StateFS × JVal :=
  if dataset_id = "" then
    ({ file := some (.parsed []) }, .obj [])
  else
    ({ file := some (.parsed [(dataset_id, .obj [("last_update", .str "")])]) },
     .obj [("last_update", .str "")])

/-- `utils.read_state` (utils.py lines 94-109): create the state file with
content `{}` if absent; `json.load` it; on `JSONDecodeError` self-heal via
`write_empty_state`; return the dataset's entry if truthy, else `None`. -/
def read_state (fs : StateFS) (dataset_id : String) : StateFS × Option JVal :=
  match fs.file with
  | none =>
      ({ file := some (.parsed []) }, none)
  | some (.parsed m) =>
      (fs,
       match alookup dataset_id m with
       | some v => if jtruthy v then some v else none
       | none => none)
  | some .malformed =>
      let healed := write_empty_state dataset_id
      (healed.1,
       match jget healed.2 dataset_id with
       | some v => if jtruthy v then some v else none
       | none => none)

/-- `utils.update_state` (utils.py lines 112-118): `open(file, 'r')` (raises
`FileNotFoundError` if the file is absent), `json.load` it (raises
`JSONDecodeError` if malformed), assign `state[dataset_id] = new_state`,
and atomically write the serialized result back. -/
def update_state (fs : StateFS) (dataset_id : String) (new_state : JVal) :
    StateFS × Except PyErr Unit :=
  match fs.file with
  | none => (fs, .error .fileNotFound)
  | some .malformed => (fs, .error .jsonDecodeError)
  | some (.parsed m) =>
      ({ file := some (.parsed (setKey m dataset_id new_state)) }, .ok ())

end Utils

namespace DataIngest

/-- `DataIngest.update_state` (ingest/__init__.py lines 56-61):
`state = self.get_state() or {}`, then `state.update({**new_state})`, then
`utils.update_state(dataset_id, state)`.  `{**new_state}` raises
`TypeError` when `new_state` is a string, and `.update` would raise
`AttributeError` if the stored value were itself a string. -/
def update_state (fs : StateFS) (dataset_id : String) (new_state : JVal) :
    StateFS × Except PyErr Unit :=
  let r := Utils.read_state fs dataset_id
  match r.2 with
  | some (.str _) => (r.1, .error .attributeError)
  | some (.obj kvs) =>
      match new_state with
      | .str _ => (r.1, .error .typeError)
      | .obj nkvs => Utils.update_state r.1 dataset_id (.obj (dictUpdate kvs nkvs))
  | none =>
      match new_state with
      | .str _ => (r.1, .error .typeError)
      | .obj nkvs => Utils.update_state r.1 dataset_id (.obj (dictUpdate [] nkvs))

end DataIngest

/-! ## Crash model of `utils.atomic_write` (utils.py lines 38-65)

`atomic_write` creates a named temporary file in the target's directory,
copies the old file's content/metadata into it when the target exists,
truncates it and writes the new contents, flushes and fsyncs, and finally
`os.replace`s it over the target.  A crash can stop the sequence at any
point; until the `os.replace`, the target file itself is untouched, and a
temp file holding a proper prefix of the new serialized object is
malformed JSON. -/

/-- The two files `atomic_write` touches: the canonical target and the
temporary file (`none` = does not exist). -/
structure RawFS : Type where
  target : Option Content
  temp : Option Content
  deriving Repr

/-- The file-system states observable if a crash happens during
`atomic_write` of content `new` over initial state `init`, before the
final `os.replace`:
* `created` — the empty temp file exists (empty is not valid JSON);
* `copied` — the old target content was copied into the temp file;
* `writing` — the temp file holds a proper prefix of `new`, malformed;
* `written` — the temp file holds all of `new`, flushed and fsynced,
  but the rename has not happened yet. -/
inductive AtomicWriteMid (init : RawFS) (new : Content) : RawFS → Prop
  | created : AtomicWriteMid init new ⟨init.target, some .malformed⟩
  | copied (t : Content) (ht : init.target = some t) :
      AtomicWriteMid init new ⟨init.target, some t⟩
  | writing : AtomicWriteMid init new ⟨init.target, some .malformed⟩
  | written : AtomicWriteMid init new ⟨init.target, some new⟩

/-- The file-system state after `atomic_write` of `new` completes: the
target holds `new` and the temp file is gone (`os.replace` plus the
`finally` unlink). -/
def atomicWriteFinal (new : Content) : RawFS :=
  { target := some new, temp := none }

/-! ## Workflow skip/commit logic

`ECMWFOpenData.run` (ingest/ecmwf_opendata/__init__.py lines 184-286) and
`DustForecastIngest.run` (ingest/dustforecast/__init__.py lines 37-84).
The network-facing steps are abstracted to the resolved remote version
(the argument `latest`, `None` when resolution found nothing) and to the
opaque actions `fetch` (data download) and `delegate` (processing plus
ingest-command webhook). -/

inductive RunAction : Type
  | fetch
  | delegate
  deriving Repr, DecidableEq

/-- The skip test shared by both workflows (ecmwf_opendata lines 218 and
264, dustforecast lines 56-57):
`dataset_state and dataset_state.get("last_update") and
 dataset_state.get("last_update") == latest_str`. -/
def noUpdateRequired (dataset_state : Option JVal) (latest_str : String) : Bool :=
  match dataset_state with
  | none => false
  | some s =>
      jtruthy s &&
      match jget s "last_update" with
      | some (.str lu) => !(lu == "") && lu == latest_str
      | some (.obj _) => false
      | none => false

namespace ECMWFOpenData

/-- `ECMWFOpenData.retrieve_surface_data` (lines 196-240): resolve the
latest remote version; if falsy return `None`; read the dataset state; if
no update is required, skip; otherwise fetch the data, process and ingest
it, and return the version string. -/
def retrieve_surface_data (latest : Option String) (fs : StateFS) (id : String) :
    StateFS × List RunAction × Option String :=
  match latest with
  | none => (fs, [], none)
  | some latest_str =>
      let r := Utils.read_state fs id
      if noUpdateRequired r.2 latest_str then (r.1, [], none)
      else (r.1, [.fetch, .delegate], some latest_str)

/-- `ECMWFOpenData.retrieve_pressure_levels_data` (lines 242-286): same as
the surface variant except that the state is read before the falsy-latest
check. -/
def retrieve_pressure_levels_data (latest : Option String) (fs : StateFS) (id : String) :
    StateFS × List RunAction × Option String :=
  let r := Utils.read_state fs id
  match latest with
  | none => (r.1, [], none)
  | some latest_str =>
      if noUpdateRequired r.2 latest_str then (r.1, [], none)
      else (r.1, [.fetch, .delegate], some latest_str)

/-- `ECMWFOpenData.run` (lines 184-194): run the surface retrieval, then
the pressure-levels retrieval (whose return value overwrites
`latest_str`), and commit `{"last_update": latest_str}` only when that
final value is truthy. -/
def run (latestS latestP : Option String) (fs : StateFS) (id : String) :
    List RunAction × StateFS × Except PyErr Unit :=
  let rs := retrieve_surface_data latestS fs id
  let rp := retrieve_pressure_levels_data latestP rs.1 id
  match rp.2.2 with
  | some v =>
      let c := DataIngest.update_state rp.1 id (.obj [("last_update", .str v)])
      (rs.2.1 ++ rp.2.1, c.1, c.2)
  | none => (rs.2.1 ++ rp.2.1, rp.1, .ok ())

end ECMWFOpenData

namespace DustForecastIngest

/-- `DustForecastIngest.run` (lines 37-84): read the dataset state, resolve
the catalog's latest date, skip when no update is required; otherwise
download and process the data, send the ingest commands, and call
`self.update_state(data_file_date)` — with the bare date string, not a
dict. -/
def run (data_file_date : String) (fs : StateFS) (id : String) :
    List RunAction × StateFS × Except PyErr Unit :=
  let r := Utils.read_state fs id
  if noUpdateRequired r.2 data_file_date then ([], r.1, .ok ())
  else
    let c := DataIngest.update_state r.1 id (.str data_file_date)
    ([.fetch, .delegate], c.1, c.2)

end DustForecastIngest

/-! ## The bounded task runner (`DataIngest.task`, ingest/__init__.py lines 40-50)

`task` submits `self.run` to a fresh `ThreadPoolExecutor` and calls
`future.result(timeout=self.task_timeout)`.  When the run is still
executing at the deadline, `result` raises `TimeoutError`; the handler
logs a warning and calls `future.cancel()`.  Per the `concurrent.futures`
contract, `cancel()` on a future that is already running returns `False`
and does not interrupt it, and leaving the `with` block calls
`executor.shutdown(wait=True)`, which joins the worker thread.  The run
therefore always executes to completion and all of its effects — including
any state commit — take place, whether or not the deadline fired.  The
model makes time discrete: a run is a list of steps, one tick each, and
the deadline fires iff the run has more steps than `task_timeout` ticks. -/

inductive RunStep : Type
  | work
  | commit (dataset_id : String) (new_state : JVal)

/-- Execute a run's steps against the state store; a raised exception stops
the run (its thread dies) and is surfaced. -/
def runSteps : StateFS → List RunStep → StateFS × Except PyErr Unit
  | fs, [] => (fs, .ok ())
  | fs, .work :: rest => runSteps fs rest
  | fs, .commit id v :: rest =>
      match DataIngest.update_state fs id v with
      | (fs', .ok _) => runSteps fs' rest
      | (fs', .error e) => (fs', .error e)

namespace DataIngest

/-- `DataIngest.task`: the boolean records whether the deadline elapsed
(`TimeoutError` was raised and `future.cancel()` attempted); the final
file-system state is that after the run completed, since the running
future cannot actually be cancelled and the executor shutdown waits for
it. -/
def task (steps : List RunStep) (task_timeout : Nat) (fs : StateFS) :
    Bool × StateFS :=
  (decide (steps.length > task_timeout), (runSteps fs steps).1)

end DataIngest

/-- Project the committed `last_update` string of a dataset out of a state
file, for comparing states before and after a run. -/
def lastUpdateOf (fs : StateFS) (id : String) : Option String :=
  match fs.file with
  | some (.parsed m) =>
      match alookup id m with
      | some v =>
          match jget v "last_update" with
          | some (.str s) => some s
          | _ => none
      | none => none
  | _ => none

/-! ## The patched ECMWF open-data client (`ingest/ecmwf_opendata/client.py`)

### Backward version search — `ECWMFPatchedClient.latest` (lines 25-57)

The candidate version (a model-run datetime) is abstracted as hours since
an epoch (`Int`).  The network is abstracted as an oracle `codes` giving,
for each candidate date, the list of HTTP status codes of the HEAD checks
on that date's resource URLs.  The code steps backward from the start date
by `delta` — 24 hours when the request carries a `time` key, 6 hours
otherwise — while the candidate is newer than `start - 30` hours, returns
the first candidate whose URL list is non-empty and all-200, and raises
`ValueError` when the window is exhausted. -/

/-- `len(codes) > 0 and all(c == 200 for c in codes)` for one candidate. -/
def allAvailable (codes : Int → List Nat) (date : Int) : Bool :=
  !(codes date).isEmpty && (codes date).all (· == 200)

/-- The `while date > stop` loop of `latest`.  The fuel only bounds the
recursion; `ECWMFPatchedClient.latest` passes more fuel than the loop can
consume (at most 5 iterations for `delta = 6`, 2 for `delta = 24`), and
the fuel-exhausted branch coincides with the loop-exhausted branch. -/
def latestGo (codes : Int → List Nat) (delta stop : Int) :
    Nat → Int → Except String Int
  | 0, _ => .error "Cannot etablish latest date"
  | fuel + 1, date =>
      if date > stop then
        if allAvailable codes date then .ok date
        else latestGo codes delta stop fuel (date - delta)
      else .error "Cannot etablish latest date"

/-- The sequence of candidate dates the loop probes, in probe order
(most recent first). -/
def probeGo (delta stop : Int) : Nat → Int → List Int
  | 0, _ => []
  | fuel + 1, date =>
      if date > stop then date :: probeGo delta stop fuel (date - delta)
      else []

namespace ECWMFPatchedClient

/-- `ECWMFPatchedClient.latest`: `delta` from the presence of a `time`
request key, `stop = date - datetime.timedelta(days=1, hours=6)`, then the
backward probe loop. -/
def latest (codes : Int → List Nat) (hasTimeParam : Bool) (start : Int) :
    Except String Int :=
  latestGo codes (if hasTimeParam then 24 else 6) (start - 30) 31 start

/-- The candidate dates `latest` probes, most recent first. -/
def probes (hasTimeParam : Bool) (start : Int) : List Int :=
  probeGo (if hasTimeParam then 24 else 6) (start - 30) 31 start

end ECWMFPatchedClient

/-! ### Index-driven partial retrieval — `ECWMFPatchedClient.get_parts`
(lines 111-160)

One sidecar-index record (`IdxLine`) is one JSON line of a `.index` file:
dimension fields plus `_offset` and `_length`.  The request selector
`for_index` is an ordered dict from dimension name to the list of
requested values.  `preserve` is the client's `preserve_request_order`
attribute (`False` by default, and never overridden in this repository). -/

structure IdxLine : Type where
  fields : List (String × String)
  offset : Nat
  length : Nat
  deriving Repr, DecidableEq

/-- One entry of the `matches` accumulator: in default mode the record's
`_offset`, in preserve-request-order mode a `(dimension, value)` index
pair. -/
def MKey : Type := Nat ⊕ (Nat × Nat)

instance : DecidableEq MKey := inferInstanceAs (DecidableEq (Nat ⊕ (Nat × Nat)))

instance : BEq MKey := ⟨fun a b => decide (a = b)⟩

/-- The `matches` list accumulated for one index record over the selector's
dimensions (client.py lines 128-139). -/
def matchesFor (preserve : Bool) (for_index : List (String × List String))
    (l : IdxLine) : List MKey :=
  for_index.enum.flatMap (fun inv =>
    match alookup inv.2.1 l.fields with
    | none => []
    | some idx =>
        if inv.2.2.contains idx then
          if preserve then
            inv.2.2.enum.filterMap (fun jv =>
              if jv.2 = idx then some (.inr (inv.1, jv.1)) else none)
          else [.inl l.offset]
        else [])

/-- `len(matches) == count` (client.py line 141): the record is selected. -/
def selectedLine (preserve : Bool) (for_index : List (String × List String))
    (l : IdxLine) : Bool :=
  (matchesFor preserve for_index l).length == for_index.length

/-- The `parts` list accumulated for one URL's index lines
(client.py lines 125-142). -/
def partsFor (preserve : Bool) (for_index : List (String × List String))
    (lines : List IdxLine) : List (List MKey × (Nat × Nat)) :=
  lines.filterMap (fun l =>
    if selectedLine preserve for_index l then
      some (matchesFor preserve for_index l, (l.offset, l.length))
    else none)

/-- Lexicographic comparison used to model Python `sorted(parts)` on
`(matches, (offset, length))` pairs.  Only the multiset of ranges matters
to the claims; mixed `inl`/`inr` keys never occur in one run. -/
def mkeyLt : MKey → MKey → Bool
  | .inl a, .inl b => a < b
  | .inr a, .inr b => a.1 < b.1 || (a.1 == b.1 && a.2 < b.2)
  | .inl _, .inr _ => true
  | .inr _, .inl _ => false

/-- Lexicographic order on `matches` keys. -/
def mkeysLt : List MKey → List MKey → Bool
  | [], [] => false
  | [], _ :: _ => true
  | _ :: _, [] => false
  | a :: as, b :: bs => mkeyLt a b || (a == b && mkeysLt as bs)

/-- Order on `parts` entries: by key, then by byte range. -/
def partLe (x y : List MKey × (Nat × Nat)) : Bool :=
  mkeysLt x.1 y.1 ||
    (x.1 == y.1 &&
      (x.2.1 < y.2.1 || (x.2.1 == y.2.1 && x.2.2 ≤ y.2.2)))

/-- Insert an element into a sorted list (ordinary insertion sort step). -/
def insertSorted {α : Type} (le : α → α → Bool) (x : α) : List α → List α
  | [] => [x]
  | y :: ys => if le x y then x :: y :: ys else y :: insertSorted le x ys

/-- A stable sort, modelling Python `sorted` (only the resulting multiset
matters to the claims). -/
def sortBy {α : Type} (le : α → α → Bool) (l : List α) : List α :=
  l.foldr (insertSorted le) []

/-- `tuple(p[1] for p in sorted(parts))` (client.py line 145): the byte
ranges of one URL's selected records, sorted. -/
def rangesFor (preserve : Bool) (for_index : List (String × List String))
    (lines : List IdxLine) : List (Nat × Nat) :=
  (sortBy partLe (partsFor preserve for_index lines)).map (·.2)

/-- The `result` list (client.py lines 144-145): URLs with at least one
selected record, each with its sorted byte ranges. -/
def resultList (preserve : Bool) (for_index : List (String × List String))
    (urls : List String) (index : String → List IdxLine) :
    List (String × List (Nat × Nat)) :=
  urls.filterMap (fun u =>
    if (partsFor preserve for_index (index u)).isEmpty then none
    else some (u, rangesFor preserve for_index (index u)))

/-- `possible_values[name]` (client.py lines 130-132): every value observed
for a dimension across all index records of all URLs. -/
def observedValues (urls : List String) (index : String → List IdxLine)
    (name : String) : List String :=
  urls.flatMap (fun u => (index u).filterMap (fun l => alookup name l.fields))

/-- The `warning_once` no-coverage diagnostics (client.py lines 147-155):
one `(dimension, value)` entry per requested value never observed in any
index.  Python iterates a set difference; the model determinizes the order,
which no claim depends on. -/
def noCoverageWarnings (urls : List String) (index : String → List IdxLine)
    (for_index : List (String × List String)) : List (String × String) :=
  for_index.flatMap (fun nv =>
    ((nv.2.dedup).filter
        (fun v => !(observedValues urls index nv.1).contains v)).map
      (fun v => (nv.1, v)))

namespace ECWMFPatchedClient

/-- `ECWMFPatchedClient.get_parts`: emit the no-coverage diagnostics, then
raise `ValueError` iff `result` is empty, else return `result`. -/
def get_parts (preserve : Bool) (urls : List String)
    (index : String → List IdxLine)
    (for_index : List (String × List String)) :
    List (String × String) × Except String (List (String × List (Nat × Nat))) :=
  (noCoverageWarnings urls index for_index,
   if (resultList preserve for_index urls index).isEmpty then
     .error "Cannot find index entries matching"
   else .ok (resultList preserve for_index urls index))

end ECWMFPatchedClient

/-- One dimension's membership test for one index record: the record has a
value for the dimension and that value is among the requested ones
(client.py lines 130-133, the `idx in values` test). -/
def dimMatch (l : IdxLine) (nv : String × List String) : Bool :=
  match alookup nv.1 l.fields with
  | some idx => nv.2.contains idx
  | none => false

/-! ## Association-list lemmas -/

lemma alookup_setKey_self (m : List (String × JVal)) (k : String) (v : JVal) :
    alookup k (setKey m k v) = some v := by
  induction m with
  | nil => simp [setKey, alookup]
  | cons kv rest ih =>
      obtain ⟨k', v'⟩ := kv
      by_cases h : k' = k
      · simp [setKey, h, alookup]
      · simp [setKey, h, alookup, ih]

lemma alookup_setKey_ne (m : List (String × JVal)) (k k' : String) (v : JVal)
    (h : k' ≠ k) : alookup k' (setKey m k v) = alookup k' m := by
  induction m with
  | nil => simp [setKey, alookup, Ne.symm h]
  | cons kv rest ih =>
      obtain ⟨k₀, v₀⟩ := kv
      by_cases h₀ : k₀ = k
      · subst h₀
        have hne : ¬ k₀ = k' := fun hh => h hh.symm
        simp [setKey, alookup, hne]
      · by_cases h₁ : k₀ = k'
        · simp [setKey, h₀, alookup, h₁, h]
        · simp [setKey, h₀, alookup, h₁, ih]

lemma alookup_dictUpdate_notin (new : List (String × JVal))
    (old : List (String × JVal)) (k : String)
    (h : ∀ kv ∈ new, kv.1 ≠ k) :
    alookup k (dictUpdate old new) = alookup k old := by
  induction new generalizing old with
  | nil => rfl
  | cons kv rest ih =>
      have hstep : dictUpdate old (kv :: rest) = dictUpdate (setKey old kv.1 kv.2) rest := rfl
      rw [hstep, ih _ (fun x hx => h x (List.mem_cons_of_mem _ hx))]
      exact alookup_setKey_ne _ _ _ _ (Ne.symm (h kv (List.mem_cons_self _ _)))

/-! ## State-store lemmas -/

/-- Evaluation of `read_state` on a malformed state file: the file is
self-healed to hold exactly the given dataset's empty entry, and the read
returns `None`. -/
lemma read_state_malformed_spec (fs : StateFS) (id : String)
    (hm : fs.file = some .malformed) (hid : id ≠ "") :
    Utils.read_state fs id
      = ({ file := some (.parsed [(id, .obj [("last_update", .str "")])]) }, none) := by
  obtain ⟨file⟩ := fs
  simp only at hm
  subst hm
  by_cases h : "last_update" = id
  · simp [Utils.read_state, Utils.write_empty_state, hid, jget, alookup, h, jtruthy]
  · simp [Utils.read_state, Utils.write_empty_state, hid, jget, alookup, h]

/-- When `read_state` returns a value, the file was already a parsed map,
was left untouched, holds that value at the dataset-id, and the value is
truthy. -/
lemma read_state_some (fs : StateFS) (id : String) (s : JVal)
    (h : (Utils.read_state fs id).2 = some s) :
    (Utils.read_state fs id).1 = fs ∧ jtruthy s = true
      ∧ ∃ m, fs.file = some (.parsed m) ∧ alookup id m = some s := by
  obtain ⟨file⟩ := fs
  match file with
  | none => simp [Utils.read_state] at h
  | some .malformed =>
      exfalso
      by_cases hid : id = ""
      · simp [Utils.read_state, Utils.write_empty_state, hid, jget, alookup] at h
      · by_cases hlu : "last_update" = id
        · simp [Utils.read_state, Utils.write_empty_state, hid, jget, alookup, hlu,
            jtruthy] at h
        · simp [Utils.read_state, Utils.write_empty_state, hid, jget, alookup, hlu] at h
  | some (.parsed m) =>
      simp only [Utils.read_state] at h
      match halook : alookup id m with
      | none => rw [halook] at h; simp at h
      | some v =>
          rw [halook] at h
          by_cases ht : jtruthy v = true
          · simp [ht] at h
            subst h
            exact ⟨rfl, ht, m, rfl, halook⟩
          · simp [Bool.of_not_eq_true ht] at h

/-- The skip test accepts exactly a stored truthy state whose
`last_update` is the non-empty resolved version string. -/
lemma noUpdateRequired_true (s : JVal) (v : String)
    (ht : jtruthy s = true) (hlu : jget s "last_update" = some (.str v))
    (hv : v ≠ "") : noUpdateRequired (some s) v = true := by
  simp [noUpdateRequired, ht, hlu, hv]

/-- C1: State commit is atomic.  `update_state` hands the serialized
updated map to `atomic_write`, which stages it in a temp file in the state
file's directory, fsyncs, and renames.  At every crash point before the
rename the canonical file still holds the prior parsed map — never a
partially written one — so a subsequent `read_state` returns exactly what
it returned before the commit; after the rename the canonical file holds
the updated map, with the new value at the dataset-id. -/
theorem update_state_commit_atomic (m : List (String × JVal)) (id : String)
    (new : JVal) (s : RawFS)
    (h : AtomicWriteMid ⟨some (.parsed m), none⟩ (.parsed (setKey m id new)) s) :
    s.target = some (.parsed m)
    ∧ (Utils.read_state ⟨s.target⟩ id).2 = (Utils.read_state ⟨some (.parsed m)⟩ id).2
    ∧ Utils.update_state ⟨some (.parsed m)⟩ id new
        = (⟨(atomicWriteFinal (.parsed (setKey m id new))).target⟩, .ok ())
    ∧ alookup id (setKey m id new) = some new := by
  have htgt : s.target = some (.parsed m) := by cases h <;> rfl
  exact ⟨htgt, by rw [htgt], rfl, alookup_setKey_self m id new⟩

/-- Witness for C1 at a concrete commit, crashed after the temp write but
before the rename. -/
theorem update_state_commit_atomic_witness :
    (RawFS.mk (some (.parsed [("ds", JVal.obj [("last_update", JVal.str "v1")])]))
        (some (.parsed (setKey [("ds", JVal.obj [("last_update", JVal.str "v1")])]
          "ds" (JVal.obj [("last_update", JVal.str "v2")]))))).target
      = some (.parsed [("ds", JVal.obj [("last_update", JVal.str "v1")])]) :=
  (update_state_commit_atomic [("ds", JVal.obj [("last_update", JVal.str "v1")])]
    "ds" (JVal.obj [("last_update", JVal.str "v2")]) _ AtomicWriteMid.written).1

/-- C2: Workflow idempotence.  When the resolved remote version (for both
ECMWF retrievals, resp. the dust catalog date) equals the non-empty
`last_update` stored in the persisted state, a run performs no fetch, no
delegation, and no commit, and leaves the state file unchanged; therefore
a second run in succession is the same no-op and the state after it equals
the state after the first run. -/
theorem workflow_no_new_version_noop (fs : StateFS) (id v : String) (s : JVal)
    (hread : (Utils.read_state fs id).2 = some s)
    (hlu : jget s "last_update" = some (.str v)) (hv : v ≠ "") :
    ECMWFOpenData.run (some v) (some v) fs id = ([], fs, .ok ())
    ∧ DustForecastIngest.run v fs id = ([], fs, .ok ())
    ∧ ECMWFOpenData.run (some v) (some v)
        ((ECMWFOpenData.run (some v) (some v) fs id).2.1) id
      = ([], (ECMWFOpenData.run (some v) (some v) fs id).2.1, .ok ()) := by
  obtain ⟨h1, ht, -⟩ := read_state_some fs id s hread
  have hr : Utils.read_state fs id = (fs, some s) := by
    calc Utils.read_state fs id
        = ((Utils.read_state fs id).1, (Utils.read_state fs id).2) := rfl
      _ = (fs, some s) := by rw [h1, hread]
  have hn : noUpdateRequired (some s) v = true := noUpdateRequired_true s v ht hlu hv
  have hecmwf : ECMWFOpenData.run (some v) (some v) fs id = ([], fs, .ok ()) := by
    simp [ECMWFOpenData.run, ECMWFOpenData.retrieve_surface_data,
      ECMWFOpenData.retrieve_pressure_levels_data, hr, hn]
  refine ⟨hecmwf, ?_, ?_⟩
  · simp [DustForecastIngest.run, hr, hn]
  · rw [hecmwf]
    exact hecmwf

/-- Witness for C2 at a concrete state file whose stored version matches
the resolved one. -/
theorem workflow_no_new_version_noop_witness :
    ECMWFOpenData.run (some "2024-01-01T00:00:00") (some "2024-01-01T00:00:00")
        { file := some (.parsed
            [("ds", JVal.obj [("last_update", JVal.str "2024-01-01T00:00:00")])]) }
        "ds"
      = ([],
         { file := some (.parsed
             [("ds", JVal.obj [("last_update", JVal.str "2024-01-01T00:00:00")])]) },
         .ok ()) :=
  (workflow_no_new_version_noop
    { file := some (.parsed
        [("ds", JVal.obj [("last_update", JVal.str "2024-01-01T00:00:00")])]) }
    "ds" "2024-01-01T00:00:00"
    (JVal.obj [("last_update", JVal.str "2024-01-01T00:00:00")])
    rfl rfl (by decide)).1

/-- C7: Malformed-state self-heal.  When the state file content fails to
parse, `read_state` does not raise: it writes back a valid state holding
an empty entry for the requested dataset-id and the read completes
normally (returning `None` for that dataset). -/
theorem read_state_self_heals (fs : StateFS) (id : String)
    (hm : fs.file = some .malformed) (hid : id ≠ "") :
    Utils.read_state fs id
      = ({ file := some (.parsed [(id, .obj [("last_update", .str "")])]) }, none) :=
  read_state_malformed_spec fs id hm hid

/-- Witness for C7 on a concrete malformed state file. -/
theorem read_state_self_heals_witness :
    Utils.read_state { file := some .malformed } "ecmwf_forecast"
      = ({ file := some (.parsed
            [("ecmwf_forecast", .obj [("last_update", .str "")])]) }, none) :=
  read_state_self_heals { file := some .malformed } "ecmwf_forecast" rfl (by decide)

/-- C9: on a malformed state file, `read_state` rewrites the whole file to
contain only the requested dataset-id's empty entry — every other
dataset-id's entry is gone — and returns `None`. -/
theorem read_state_malformed_resets_all (fs : StateFS) (id other : String)
    (hm : fs.file = some .malformed) (hid : id ≠ "") (hother : other ≠ id) :
    (Utils.read_state fs id).1.file
        = some (.parsed [(id, .obj [("last_update", .str "")])])
    ∧ (∀ m, (Utils.read_state fs id).1.file = some (.parsed m) →
        alookup other m = none)
    ∧ (Utils.read_state fs id).2 = none := by
  rw [read_state_malformed_spec fs id hm hid]
  refine ⟨rfl, ?_, rfl⟩
  intro m hmeq
  have hm' : m = [(id, JVal.obj [("last_update", JVal.str "")])] := by
    injection hmeq with h₁
    injection h₁ with h₂
    exact h₂.symm
  subst hm'
  simp [alookup, Ne.symm hother]

/-- Witness for C9: after self-healing for dataset `a`, dataset `b`'s
entry is gone. -/
theorem read_state_malformed_resets_all_witness :
    alookup "b" [("a", JVal.obj [("last_update", JVal.str "")])] = none :=
  (read_state_malformed_resets_all { file := some .malformed } "a" "b"
      rfl (by decide) (by decide)).2.1
    [("a", JVal.obj [("last_update", JVal.str "")])]
    (read_state_malformed_resets_all { file := some .malformed } "a" "b"
      rfl (by decide) (by decide)).1

/-- C10: commit requires an existing state file.  `update_state` opens the
canonical file with mode `'r'`, so before any read has created the file a
commit raises `FileNotFoundError` and writes nothing; `read_state` is the
operation that creates the absent file (with content `{}`). -/
theorem update_state_missing_file_error (fs : StateFS) (id : String) (v : JVal)
    (h : fs.file = none) :
    Utils.update_state fs id v = (fs, .error .fileNotFound)
    ∧ Utils.read_state fs id = ({ file := some (.parsed []) }, none) := by
  obtain ⟨file⟩ := fs
  simp only at h
  subst h
  exact ⟨rfl, rfl⟩

/-- Witness for C10 on the absent state file. -/
theorem update_state_missing_file_error_witness :
    Utils.update_state { file := none } "ds" (JVal.str "x")
      = ({ file := none }, .error .fileNotFound) :=
  (update_state_missing_file_error { file := none } "ds" (JVal.str "x") rfl).1

/-- Counterexample to C8 as stated: the TamSat workflow
(`tamsat_rainfall/__init__.py` line 125) commits
`{"monthly": <ISO date>}` through `DataIngest.update_state`; starting from
an empty parsed state file the commit succeeds and the committed
per-dataset value has no `last_update` field at all. -/
theorem commit_without_last_update_cex :
    DataIngest.update_state { file := some (.parsed []) } "tamsat_rainfall"
        (.obj [("monthly", .str "1983-01-01T00:00:00")])
      = ({ file := some (.parsed
            [("tamsat_rainfall",
              JVal.obj [("monthly", JVal.str "1983-01-01T00:00:00")])]) },
         .ok ())
    ∧ jget (JVal.obj [("monthly", JVal.str "1983-01-01T00:00:00")]) "last_update"
        = none :=
  ⟨rfl, rfl⟩

/-- C8 (amended): every per-dataset value committed through the workflow
commit helper is a structured record — an attempted commit of a bare
string raises `TypeError` before anything is written — and auxiliary keys
already present in the dataset's stored state but absent from the newly
committed state are preserved across the commit.  (The committed record
need not contain a `last_update` field: see the counterexample.) -/
theorem commit_structured_preserves_aux (fs : StateFS) (id : String)
    (m kvs₀ new : List (String × JVal)) (s : String)
    (hfile : fs.file = some (.parsed m))
    (hprior : alookup id m = some (.obj kvs₀)) (hne : kvs₀ ≠ []) :
    ((DataIngest.update_state fs id (.obj new)).1.file
        = some (.parsed (setKey m id (.obj (dictUpdate kvs₀ new))))
      ∧ (DataIngest.update_state fs id (.obj new)).2 = .ok ()
      ∧ alookup id (setKey m id (.obj (dictUpdate kvs₀ new)))
          = some (.obj (dictUpdate kvs₀ new))
      ∧ ∀ k, (∀ kv ∈ new, kv.1 ≠ k) →
          alookup k (dictUpdate kvs₀ new) = alookup k kvs₀)
    ∧ DataIngest.update_state fs id (.str s) = (fs, .error .typeError) := by
  have htr : jtruthy (.obj kvs₀) = true := by
    match kvs₀, hne with
    | _ :: _, _ => rfl
  have hr : Utils.read_state fs id = (fs, some (.obj kvs₀)) := by
    obtain ⟨file⟩ := fs
    simp only at hfile
    subst hfile
    simp [Utils.read_state, hprior, htr]
  refine ⟨⟨?_, ?_, alookup_setKey_self _ _ _,
      fun k hk => alookup_dictUpdate_notin new kvs₀ k hk⟩, ?_⟩
  · simp [DataIngest.update_state, hr, Utils.update_state, hfile]
  · simp [DataIngest.update_state, hr, Utils.update_state, hfile]
  · simp [DataIngest.update_state, hr]

/-- Witness for C8 (amended): a commit of `{"last_update": "b"}` over a
stored state also holding `"monthly_normals"` preserves that auxiliary
key, and committing a bare string raises `TypeError`. -/
theorem commit_structured_preserves_aux_witness :
    alookup "monthly_normals"
        (dictUpdate
          [("last_update", JVal.str "a"), ("monthly_normals", JVal.str "n")]
          [("last_update", JVal.str "b")])
      = alookup "monthly_normals"
          [("last_update", JVal.str "a"), ("monthly_normals", JVal.str "n")] :=
  (commit_structured_preserves_aux
    { file := some (.parsed
        [("ds", JVal.obj
          [("last_update", JVal.str "a"), ("monthly_normals", JVal.str "n")])]) }
    "ds"
    [("ds", JVal.obj
      [("last_update", JVal.str "a"), ("monthly_normals", JVal.str "n")])]
    [("last_update", JVal.str "a"), ("monthly_normals", JVal.str "n")]
    [("last_update", JVal.str "b")] "1990-01-01T00:00:00"
    rfl rfl (List.cons_ne_nil _ _)).1.2.2.2 "monthly_normals"
    (by intro kv hkv; simp at hkv; simp [hkv])

/-- C6 evaluated at a failing input: a run of 3 ticks under a 1-tick
deadline whose last step commits a new `last_update`.  The deadline
elapses (`TimeoutError` is raised and `future.cancel()` attempted), yet —
because a running future cannot be cancelled and the executor shutdown
waits for it — the run still reaches its commit, and the persisted state
after the run differs from the pre-run state, contradicting the claim
that a cancelled run never calls the state-store commit. -/
theorem task_timeout_still_commits :
    DataIngest.task
        [.work, .work,
         .commit "ds" (.obj [("last_update", .str "2024-01-02T00:00:00")])]
        1
        { file := some (.parsed
            [("ds", JVal.obj [("last_update", JVal.str "2024-01-01T00:00:00")])]) }
      = (true,
         { file := some (.parsed
             [("ds", JVal.obj [("last_update", JVal.str "2024-01-02T00:00:00")])]) })
    ∧ lastUpdateOf
        { file := some (.parsed
            [("ds", JVal.obj [("last_update", JVal.str "2024-01-02T00:00:00")])]) }
        "ds"
      ≠ lastUpdateOf
          { file := some (.parsed
              [("ds", JVal.obj [("last_update", JVal.str "2024-01-01T00:00:00")])]) }
          "ds" :=
  ⟨rfl, by decide⟩

/-! ## Lemmas about the backward version search -/

/-- The probe loop returns exactly the first probed candidate that is
fully available, and the `ValueError` otherwise — for any fuel, since the
fuel-exhausted and window-exhausted branches coincide. -/
lemma latestGo_eq_find (codes : Int → List Nat) (delta stop : Int) :
    ∀ (fuel : Nat) (date : Int),
      latestGo codes delta stop fuel date
        = match (probeGo delta stop fuel date).find? (allAvailable codes) with
          | some d => .ok d
          | none => .error "Cannot etablish latest date" := by
  intro fuel
  induction fuel with
  | zero => intro date; rfl
  | succ n ih =>
      intro date
      by_cases h : date > stop
      · by_cases ha : allAvailable codes date = true
        · simp [latestGo, probeGo, h, ha, List.find?]
        · simp [latestGo, probeGo, h, Bool.of_not_eq_true ha, List.find?, ih]
      · simp [latestGo, probeGo, h]

lemma probeGo_mem_le (delta stop : Int) (hd : 0 < delta) :
    ∀ (fuel : Nat) (date : Int), ∀ x ∈ probeGo delta stop fuel date, x ≤ date := by
  intro fuel
  induction fuel with
  | zero => intro date x hx; simp [probeGo] at hx
  | succ n ih =>
      intro date x hx
      by_cases h : date > stop
      · simp only [probeGo, if_pos h, List.mem_cons] at hx
        rcases hx with rfl | hx
        · exact le_refl x
        · have := ih (date - delta) x hx
          omega
      · simp [probeGo, h] at hx

lemma probeGo_pairwise (delta stop : Int) (hd : 0 < delta) :
    ∀ (fuel : Nat) (date : Int),
      (probeGo delta stop fuel date).Pairwise (fun a b => b < a) := by
  intro fuel
  induction fuel with
  | zero => intro date; simp [probeGo]
  | succ n ih =>
      intro date
      by_cases h : date > stop
      · simp only [probeGo, if_pos h]
        refine List.pairwise_cons.mpr ⟨?_, ih (date - delta)⟩
        intro x hx
        have := probeGo_mem_le delta stop hd n (date - delta) x hx
        omega
      · simp [probeGo, h]

lemma find?_split {α : Type} (p : α → Bool) :
    ∀ (l : List α) (b : α), l.find? p = some b →
      ∃ l₁ l₂, l = l₁ ++ b :: l₂ ∧ (∀ x ∈ l₁, p x = false) ∧ p b = true := by
  intro l
  induction l with
  | nil => intro b h; simp [List.find?] at h
  | cons a l ih =>
      intro b h
      by_cases ha : p a = true
      · rw [List.find?_cons_of_pos _ ha] at h
        injection h with h
        subst h
        exact ⟨[], l, rfl, by simp, ha⟩
      · rw [List.find?_cons_of_neg _ (by simpa using ha)] at h
        obtain ⟨l₁, l₂, hsplit, hpre, hb⟩ := ih b h
        exact ⟨a :: l₁, l₂, by rw [hsplit]; rfl,
          by
            intro x hx
            rcases List.mem_cons.mp hx with rfl | hx
            · exact Bool.of_not_eq_true ha
            · exact hpre x hx,
          hb⟩

/-- Counterexample to C3 as stated: with an oracle under which no probed
candidate's resources exist, `latest` raises `ValueError` — it does not
return a non-error NotFound outcome. -/
theorem latest_exhaustion_raises_cex :
    ECWMFPatchedClient.latest (fun _ => [404]) false 0
      = .error "Cannot etablish latest date" := rfl

/-- C3 (amended): the backward search is bounded — it probes exactly the
candidates within the search window (start, start−6h, … down to 30 hours
back, in steps of 6h, or 24h when the request has a `time` key), raises
`ValueError` when none of them is fully available, and when it succeeds it
returns the most recent probed candidate all of whose resource URLs exist
(a non-empty URL list, all HEAD checks 200) — never a candidate for which
only some resources exist. -/
theorem latest_bounded_backward_search (codes : Int → List Nat) (ht : Bool)
    (start : Int) :
    ((∀ d ∈ ECWMFPatchedClient.probes ht start, allAvailable codes d = false) →
      ECWMFPatchedClient.latest codes ht start
        = .error "Cannot etablish latest date")
    ∧ ∀ d, ECWMFPatchedClient.latest codes ht start = .ok d →
        d ∈ ECWMFPatchedClient.probes ht start ∧ allAvailable codes d = true ∧
        ∀ d' ∈ ECWMFPatchedClient.probes ht start, d < d' →
          allAvailable codes d' = false := by
  have hd : (0 : Int) < if ht then 24 else 6 := by cases ht <;> norm_num
  have hkey := latestGo_eq_find codes (if ht then 24 else 6) (start - 30) 31 start
  constructor
  · intro hnone
    have hfind : (ECWMFPatchedClient.probes ht start).find? (allAvailable codes)
        = none := by
      rw [List.find?_eq_none]
      intro x hx
      simp [hnone x hx]
    unfold ECWMFPatchedClient.latest
    rw [hkey]
    unfold ECWMFPatchedClient.probes at hfind
    rw [hfind]
  · intro d hok
    unfold ECWMFPatchedClient.latest at hok
    rw [hkey] at hok
    match hfind : (probeGo (if ht then 24 else 6) (start - 30) 31 start).find?
        (allAvailable codes) with
    | none => rw [hfind] at hok; simp at hok
    | some d₀ =>
        rw [hfind] at hok
        injection hok with hok
        have hdd : d = d₀ := hok.symm
        subst hdd
        obtain ⟨l₁, l₂, hsplit, hpre, hbd⟩ := find?_split (allAvailable codes) _ _ hfind
        have hmem : d ∈ ECWMFPatchedClient.probes ht start := by
          unfold ECWMFPatchedClient.probes
          rw [hsplit]
          exact List.mem_append_right _ (List.mem_cons_self _ _)
        refine ⟨hmem, hbd, ?_⟩
        intro d' hd' hlt
        have hpw := probeGo_pairwise (if ht then 24 else 6) (start - 30) hd 31 start
        rw [hsplit] at hpw
        obtain ⟨-, hpw₂, -⟩ := List.pairwise_append.mp hpw
        obtain ⟨hafter, -⟩ := List.pairwise_cons.mp hpw₂
        unfold ECWMFPatchedClient.probes at hd'
        rw [hsplit] at hd'
        rcases List.mem_append.mp hd' with h₁ | h₂
        · exact hpre d' h₁
        · rcases List.mem_cons.mp h₂ with rfl | h₂
          · exact absurd hlt (lt_irrefl d')
          · exact absurd (hafter d' h₂) (not_lt_of_gt hlt)

/-- Witness for C3 at a concrete oracle under which only the third probed
candidate (12 hours back) is fully available. -/
theorem latest_bounded_backward_search_witness :
    (-12 : Int) ∈ ECWMFPatchedClient.probes false 0
    ∧ allAvailable (fun d => if d = -12 then [200] else [404]) (-12) = true
    ∧ ∀ d' ∈ ECWMFPatchedClient.probes false 0, (-12 : Int) < d' →
        allAvailable (fun d => if d = -12 then [200] else [404]) d' = false :=
  (latest_bounded_backward_search (fun d => if d = -12 then [200] else [404])
    false 0).2 (-12) rfl



/-! ## Lemmas about index matching (`get_parts`) -/

lemma matchesFor_false_enumFrom (fi : List (String × List String)) (l : IdxLine) :
    ∀ n : Nat,
      ((List.enumFrom n fi).flatMap (fun inv =>
          match alookup inv.2.1 l.fields with
          | none => ([] : List MKey)
          | some idx =>
              if inv.2.2.contains idx then [Sum.inl l.offset] else []))
        = (fi.filter (dimMatch l)).map (fun _ => (Sum.inl l.offset : MKey)) := by
  induction fi with
  | nil => intro n; rfl
  | cons nv rest ih =>
      intro n
      simp only [List.enumFrom, List.flatMap_cons, List.filter_cons]
      rw [ih (n + 1)]
      cases halook : alookup nv.1 l.fields with
      | none => simp [dimMatch, halook]
      | some idx =>
          by_cases hc : nv.2.contains idx = true
          · have hmem : idx ∈ nv.2 := List.elem_iff.mp hc
            simp [dimMatch, halook, hc, hmem, List.replicate_succ]
          · have hnmem : idx ∉ nv.2 := fun hm => hc (List.elem_iff.mpr hm)
            simp [dimMatch, halook, Bool.of_not_eq_true hc, hnmem]

/-- In default (non-preserve-request-order) mode, the `matches` list holds
one entry per matched selector dimension. -/
lemma matchesFor_false_eq (fi : List (String × List String)) (l : IdxLine) :
    matchesFor false fi l
      = (fi.filter (dimMatch l)).map (fun _ => (Sum.inl l.offset : MKey)) := by
  unfold matchesFor
  rw [List.enum_eq_enumFrom]
  exact matchesFor_false_enumFrom fi l 0

/-- `len(matches) == count` holds exactly when every selector dimension
matches the record. -/
lemma selectedLine_false_iff (fi : List (String × List String)) (l : IdxLine) :
    selectedLine false fi l = true ↔ ∀ nv ∈ fi, dimMatch l nv = true := by
  unfold selectedLine
  rw [matchesFor_false_eq]
  simp only [List.length_map, beq_iff_eq]
  exact List.filter_length_eq_length

lemma dimMatch_iff_mem_map_some (l : IdxLine) (nv : String × List String) :
    dimMatch l nv = true ↔ alookup nv.1 l.fields ∈ nv.2.map some := by
  unfold dimMatch
  cases halook : alookup nv.1 l.fields with
  | none => simp
  | some idx => simp [List.elem_iff]

lemma partsFor_map_snd (preserve : Bool) (fi : List (String × List String))
    (lines : List IdxLine) :
    (partsFor preserve fi lines).map (·.2)
      = (lines.filter (selectedLine preserve fi)).map
          (fun l => (l.offset, l.length)) := by
  induction lines with
  | nil => rfl
  | cons l rest ih =>
      unfold partsFor at ih ⊢
      by_cases hs : selectedLine preserve fi l = true
      · simp [List.filterMap_cons, List.filter_cons, hs, ih]
      · simp [List.filterMap_cons, List.filter_cons, Bool.of_not_eq_true hs, ih]

lemma insertSorted_perm {α : Type} (le : α → α → Bool) (x : α) (l : List α) :
    (insertSorted le x l).Perm (x :: l) := by
  induction l with
  | nil => exact List.Perm.refl _
  | cons y ys ih =>
      by_cases h : le x y = true
      · simp only [insertSorted, if_pos h]
        exact List.Perm.refl _
      · simp only [insertSorted, if_neg h]
        exact (ih.cons y).trans (List.Perm.swap x y ys)

lemma sortBy_perm {α : Type} (le : α → α → Bool) (l : List α) :
    (sortBy le l).Perm l := by
  induction l with
  | nil => exact List.Perm.refl _
  | cons x xs ih =>
      exact (insertSorted_perm le x (sortBy le xs)).trans (ih.cons x)

/-- The byte ranges produced for one URL are a permutation of the
offset/length pairs of exactly its selected records. -/
lemma rangesFor_perm (preserve : Bool) (fi : List (String × List String))
    (lines : List IdxLine) :
    (rangesFor preserve fi lines).Perm
      ((lines.filter (selectedLine preserve fi)).map
        (fun l => (l.offset, l.length))) := by
  unfold rangesFor
  rw [← partsFor_map_snd]
  exact (sortBy_perm partLe (partsFor preserve fi lines)).map _

lemma resultList_mem (preserve : Bool) (fi : List (String × List String))
    (urls : List String) (index : String → List IdxLine)
    (u : String) (rs : List (Nat × Nat))
    (h : (u, rs) ∈ resultList preserve fi urls index) :
    u ∈ urls ∧ rs = rangesFor preserve fi (index u)
      ∧ partsFor preserve fi (index u) ≠ [] := by
  unfold resultList at h
  obtain ⟨a, ha, hsome⟩ := List.mem_filterMap.mp h
  by_cases he : (partsFor preserve fi (index a)).isEmpty = true
  · rw [if_pos he] at hsome
    exact absurd hsome (by simp)
  · rw [if_neg he] at hsome
    injection hsome with hpair
    have hu : a = u := congrArg Prod.fst hpair
    have hrs : rangesFor preserve fi (index a) = rs := congrArg Prod.snd hpair
    subst hu
    exact ⟨ha, hrs.symm, fun hnil => he (by simp [hnil])⟩

/-- C4: Index matching correctness, at the client's default
`preserve_request_order = False` (never overridden in this repository).
An index record is selected iff its dimension-value tuple lies in the
cartesian product of the selector's requested value lists; the byte ranges
produced for a URL are exactly the offset/length pairs of its selected
records and of no others. -/
theorem get_parts_index_matching (fi : List (String × List String))
    (l : IdxLine) (lines : List IdxLine) (urls : List String)
    (index : String → List IdxLine) :
    (selectedLine false fi l = true ↔
      (fi.map (fun nv => alookup nv.1 l.fields))
        ∈ (fi.map (fun nv => nv.2.map some)).sections)
    ∧ (rangesFor false fi lines).Perm
        ((lines.filter (selectedLine false fi)).map
          (fun r => (r.offset, r.length)))
    ∧ ∀ u rs, (u, rs) ∈ resultList false fi urls index →
        u ∈ urls ∧ rs = rangesFor false fi (index u) := by
  refine ⟨?_, rangesFor_perm false fi lines, ?_⟩
  · rw [selectedLine_false_iff, List.mem_sections, List.forall₂_map_left_iff,
      List.forall₂_map_right_iff, List.forall₂_same]
    exact ⟨fun h nv hnv => (dimMatch_iff_mem_map_some l nv).mp (h nv hnv),
           fun h nv hnv => (dimMatch_iff_mem_map_some l nv).mpr (h nv hnv)⟩
  · intro u rs h
    obtain ⟨h₁, h₂, -⟩ := resultList_mem false fi urls index u rs h
    exact ⟨h₁, h₂⟩

/-- Witness for C4 on a concrete two-dimension selector and a matching
index record. -/
theorem get_parts_index_matching_witness :
    "u" ∈ ["u"]
    ∧ [(10, 5)] = rangesFor false [("param", ["A", "B"]), ("level", ["1"])]
        ((fun _ => [(⟨[("param", "A"), ("level", "1")], 10, 5⟩ : IdxLine)]) "u") :=
  (get_parts_index_matching [("param", ["A", "B"]), ("level", ["1"])]
    ⟨[("param", "A"), ("level", "1")], 10, 5⟩
    [⟨[("param", "A"), ("level", "1")], 10, 5⟩] ["u"]
    (fun _ => [⟨[("param", "A"), ("level", "1")], 10, 5⟩])).2.2
    "u" [(10, 5)] (by decide)

lemma partsFor_eq_nil_iff (preserve : Bool) (fi : List (String × List String))
    (lines : List IdxLine) :
    partsFor preserve fi lines = []
      ↔ ∀ l ∈ lines, selectedLine preserve fi l = false := by
  unfold partsFor
  rw [List.filterMap_eq_nil_iff]
  constructor
  · intro h l hl
    have hx := h l hl
    by_cases hs : selectedLine preserve fi l = true
    · rw [if_pos hs] at hx
      exact absurd hx (by simp)
    · exact Bool.of_not_eq_true hs
  · intro h l hl
    rw [if_neg (by simp [h l hl])]

lemma resultList_eq_nil_iff (preserve : Bool) (fi : List (String × List String))
    (urls : List String) (index : String → List IdxLine) :
    resultList preserve fi urls index = []
      ↔ ∀ u ∈ urls, partsFor preserve fi (index u) = [] := by
  unfold resultList
  rw [List.filterMap_eq_nil_iff]
  constructor
  · intro h u hu
    have hx := h u hu
    by_cases he : (partsFor preserve fi (index u)).isEmpty = true
    · exact List.isEmpty_iff.mp he
    · rw [if_neg he] at hx
      exact absurd hx (by simp)
  · intro h u hu
    rw [if_pos (by simp [h u hu])]

/-- Counterexample to C5 as stated: two URLs, one with a matching record
and one whose index matches no requested combination.  No error is raised
for the unmatched URL — `get_parts` simply omits it from the result. -/
theorem get_parts_unmatched_url_silent_cex :
    (ECWMFPatchedClient.get_parts false ["u1", "u2"]
        (fun u => if u = "u1" then [(⟨[("param", "A")], 0, 4⟩ : IdxLine)]
                  else [⟨[("param", "B")], 4, 4⟩])
        [("param", ["A"])]).2
      = .ok [("u1", [(0, 4)])]
    ∧ ∀ l ∈ (fun u => if u = "u1" then [(⟨[("param", "A")], 0, 4⟩ : IdxLine)]
                      else [⟨[("param", "B")], 4, 4⟩]) "u2",
        selectedLine false [("param", ["A"])] l = false :=
  ⟨rfl, by decide⟩

/-- C5 (amended): `get_parts` raises its resource-unmatched `ValueError`
exactly when no URL has any record matching the requested combinations —
including the zero-URLs case, which produces the same error rather than a
distinct request error.  A URL none of whose records match, while some
other URL matched, is silently dropped from the result, not reported.  A
requested dimension value observed in no index yields a no-coverage
diagnostic entry, never an error by itself. -/
theorem get_parts_error_characterization (preserve : Bool) (urls : List String)
    (index : String → List IdxLine) (fi : List (String × List String)) :
    ((ECWMFPatchedClient.get_parts preserve urls index fi).2
        = .error "Cannot find index entries matching"
      ↔ ∀ u ∈ urls, ∀ l ∈ index u, selectedLine preserve fi l = false)
    ∧ (∀ u ∈ urls, (∀ l ∈ index u, selectedLine preserve fi l = false) →
        ∀ rs, (u, rs) ∉ resultList preserve fi urls index)
    ∧ ∀ name vs v, (name, vs) ∈ fi → v ∈ vs →
        (∀ u ∈ urls, ∀ l ∈ index u, alookup name l.fields ≠ some v) →
        (name, v) ∈ (ECWMFPatchedClient.get_parts preserve urls index fi).1 := by
  refine ⟨?_, ?_, ?_⟩
  · show (if (resultList preserve fi urls index).isEmpty then
        (.error "Cannot find index entries matching" :
          Except String (List (String × List (Nat × Nat))))
      else .ok (resultList preserve fi urls index))
        = .error "Cannot find index entries matching" ↔ _
    constructor
    · intro h
      by_cases he : (resultList preserve fi urls index).isEmpty = true
      · intro u hu
        exact (partsFor_eq_nil_iff preserve fi (index u)).mp
          ((resultList_eq_nil_iff preserve fi urls index).mp
            (List.isEmpty_iff.mp he) u hu)
      · rw [if_neg he] at h
        exact absurd h (by simp)
    · intro hall
      have hnil : resultList preserve fi urls index = [] :=
        (resultList_eq_nil_iff preserve fi urls index).mpr
          (fun u hu => (partsFor_eq_nil_iff preserve fi (index u)).mpr (hall u hu))
      rw [if_pos (by simp [hnil])]
  · intro u hu hnone rs hmem
    obtain ⟨-, -, hne⟩ := resultList_mem preserve fi urls index u rs hmem
    exact hne ((partsFor_eq_nil_iff preserve fi (index u)).mpr hnone)
  · intro name vs v hfi hv hnever
    show (name, v) ∈ noCoverageWarnings urls index fi
    have hnotin : v ∉ observedValues urls index name := by
      intro hmem
      obtain ⟨u, hu, hline⟩ := List.mem_flatMap.mp hmem
      obtain ⟨l, hl, heq⟩ := List.mem_filterMap.mp hline
      exact hnever u hu l hl heq
    have hcf : (observedValues urls index name).contains v = false := by
      by_cases hc : (observedValues urls index name).contains v = true
      · exact absurd (List.elem_iff.mp hc) hnotin
      · exact Bool.of_not_eq_true hc
    exact List.mem_flatMap.mpr ⟨(name, vs), hfi,
      List.mem_map.mpr ⟨v,
        List.mem_filter.mpr ⟨List.mem_dedup.mpr hv, by simp [hcf, hnotin]⟩, rfl⟩⟩

/-- Witness for C5 (amended) on a concrete fully-unmatched request: the
resource-unmatched error is raised. -/
theorem get_parts_error_characterization_witness :
    (ECWMFPatchedClient.get_parts false ["u"]
        (fun _ => [(⟨[("param", "B")], 0, 4⟩ : IdxLine)])
        [("param", ["A"])]).2
      = .error "Cannot find index entries matching" :=
  (get_parts_error_characterization false ["u"]
    (fun _ => [⟨[("param", "B")], 0, 4⟩]) [("param", ["A"])]).1.mpr (by decide)
